import Mathlib

/-!
Verification of the dbt-rules build-graph generation engine (`RULES/core`).

The Go source is shallowly embedded: the mutable `context` struct becomes an
explicit state record, Go maps become association lists (their unspecified
iteration order is passed explicitly where the source iterates them), pointers
into the build-step table become indices into an explicit step store, and the
process-terminating `Fatal` path becomes an `Except` error.  Machine integers
(`uint32` in `hash/crc32`) are modelled as `Nat` kept below `2 ^ 32` by the
bit operations themselves.
-/

set_option maxRecDepth 100000

namespace DbtRules

/-! ## Path model

`RULES/core` uses paths only through the `Path` interface: the engine calls
`Absolute()` and compares path values (Go interface equality, which includes
the dynamic type).  The path implementation file itself is not among the
sources; we model a path by its dynamic kind (source- or build-relative)
together with its absolute projection, which is exactly the information the
engine code under verification consumes. -/

structure OutPath where
  abs : String
deriving DecidableEq, Repr

/-- Go `Path` interface value: either a source path or an `OutPath`.
Equality is Go interface equality (dynamic type + value). -/
inductive Path where
  | src (abs : String)
  | out (p : OutPath)
deriving DecidableEq, Repr

def OutPath.Absolute (p : OutPath) : String := p.abs

def Path.Absolute : Path → String
  | .src a => a
  | .out p => p.abs

/-- Space escaping on the character list, used by `ninjaEscape`. -/
def ninjaEscapeChars : List Char → List Char
  | [] => []
  | c :: rest =>
    if c = ' ' then '$' :: ' ' :: ninjaEscapeChars rest
    else c :: ninjaEscapeChars rest

/-- Go `ninjaEscape` (context.go lines 473-475):
`strings.ReplaceAll(s, " ", "$ ")`. -/
def ninjaEscape (s : String) : String :=
  String.mk (ninjaEscapeChars s.data)

/-! ## Generic helpers for Go maps and sets

A Go `map[string]V` is modelled as an association list without duplicate
keys; `mapSet` is map assignment (overwrite or append), `mapGet` is lookup.
A Go `map[Path]bool` used as a set is a duplicate-free list. -/

def mapGet {α : Type} (m : List (String × α)) (k : String) : Option α :=
  (m.find? (fun kv => kv.1 = k)).map (·.2)

def mapSet {α : Type} (m : List (String × α)) (k : String) (v : α) : List (String × α) :=
  if m.any (fun kv => kv.1 = k) then
    m.map (fun kv => if kv.1 = k then (k, v) else kv)
  else
    m ++ [(k, v)]

def setInsert (s : List Path) (p : Path) : List Path :=
  if p ∈ s then s else s ++ [p]

def setRemove (s : List Path) (p : Path) : List Path :=
  s.filter (fun q => q ≠ p)

/-- Lexicographic comparison of character lists by code point, mirroring
Go's byte-wise string comparison on ASCII strings. -/
def charListLe : List Char → List Char → Bool
  | [], _ => true
  | _ :: _, [] => false
  | a :: as, b :: bs =>
    if a.toNat < b.toNat then true
    else if b.toNat < a.toNat then false
    else charListLe as bs

def strLe (a b : String) : Bool :=
  charListLe a.data b.data

/-- Go `sort.Strings`: lexicographic sort (byte-wise in Go, code-point-wise
here; identical on the ASCII strings the engine produces). -/
def sortStrings (l : List String) : List String :=
  l.insertionSort (fun a b => strLe a b = true)

/-! ## CRC-32 (IEEE), as used by Go `hash/crc32.ChecksumIEEE`

Reflected algorithm, polynomial `0xEDB88320`, initial value and final xor
`0xFFFFFFFF`.  All intermediate values stay below `2 ^ 32`. -/

def crc32Poly : Nat := 0xEDB88320

def crc32Step (crc : Nat) : Nat :=
  if crc % 2 = 1 then (crc / 2) ^^^ crc32Poly else crc / 2

def crc32Byte (crc b : Nat) : Nat :=
  crc32Step^[8] (crc ^^^ b % 256)

def crc32 (bytes : List Nat) : Nat :=
  (bytes.foldl crc32Byte 0xFFFFFFFF) ^^^ 0xFFFFFFFF

/-- Bytes of a string, as Go `[]byte(s)`.  The engine only hashes ASCII
strings, for which UTF-8 bytes coincide with code points. -/
def strBytes (s : String) : List Nat :=
  s.data.map (fun c => c.toNat)

/-- Go `fmt.Sprintf("%08X", n)` for `n < 2 ^ 32`: eight upper-case hex digits. -/
def hexDigit (n : Nat) : Char :=
  if n < 10 then Char.ofNat (48 + n) else Char.ofNat (55 + n)

def hex8 (n : Nat) : String :=
  String.mk ((List.range 8).map (fun i => hexDigit (n / 16 ^ (7 - i) % 16)))

/-! ## Configuration registry: the hash computed at lock time (flags.go)

`lockAndGetFlags` iterates the `registeredFlags` map collecting
`name=value` strings, sorts them, joins them with `"#"`, and takes the
CRC-32 checksum; the build-directory suffix is `fmt.Sprintf("-%08X", hash)`.
The registered flag table is modelled as the list of `(name, resolved value)`
pairs in registration order; map iteration order is irrelevant to the result
because of the sort, which the permutation theorems below make precise. -/

def flagString (nv : String × String) : String :=
  nv.1 ++ "=" ++ nv.2

/-- Checksum computed in `lockAndGetFlags` (flags.go line 248). -/
def lockHash (flags : List (String × String)) : Nat :=
  crc32 (strBytes (String.intercalate "#" (sortStrings (flags.map flagString))))

/-- Global flag-lock state (flags.go `flagsLocked`, util.go `buildDirSuffix`). -/
structure FlagsState where
  flagsLocked : Bool
  buildDirSuffix : String
deriving DecidableEq, Repr

/-- State effect of `lockAndGetFlags` (flags.go lines 233-262): sets
`flagsLocked` and fixes `buildDirSuffix` from the flag hash.  The returned
info table and the config-file write are I/O side effects outside the
engine state. -/
def lockAndGetFlags (flags : List (String × String)) (_st : FlagsState) : FlagsState :=
  { flagsLocked := true, buildDirSuffix := "-" ++ hex8 (lockHash flags) }

/-- Go `buildDir()` (unnamed/part_003 lines 39-44).  The binder `p` stands for
`buildDirPrefix()`, which reads the process arguments. -/
def buildDir (st : FlagsState) (p : String) : Except String String :=
  if !st.flagsLocked then
    .error "cannot use build directory before all flag values are known"
  else
    .ok (p ++ st.buildDirSuffix)

/-! ## Build engine state (context.go, first snapshot)

The Go `context` struct.  Go maps become association lists; the
`*BuildStepWithRule` pointers stored in `buildSteps` become indices into an
explicit `stepStore` (pointer identity = index), so that the aliasing of one
step under several output keys and the in-place trace/rule-name mutations are
represented faithfully.  The `cwd` field and the compilation-database rule
registry are omitted: no property below concerns them. -/

structure BuildRule where
  Name : String
  Variables : List (String × String)
deriving DecidableEq, Repr

structure BuildStepWithRule where
  Outs : List OutPath
  Ins : List Path
  OrderDeps : List Path
  Variables : List (String × String)
  Rule : BuildRule
  traces : List (List String)
deriving DecidableEq, Repr

structure TargetRule where
  Target : String
  Ins : List String
  Variables : List (String × String)
deriving DecidableEq, Repr

structure Ctx where
  trace : List String
  leafOutputs : List Path
  buildSteps : List (String × Nat)
  stepStore : List BuildStepWithRule
  targetRules : List TargetRule
deriving DecidableEq, Repr

/-- Go map read `m[k]` over a `map[string]string`, yielding `""` when the key
is absent, as used by `stepsAreEquivalent` on the variable maps. -/
def mapGetStr (m : List (String × String)) (k : String) : String :=
  (mapGet m k).getD ""

/-- Go `stepsAreEquivalent` (context.go lines 341-382).  The Go function
returns an error describing the first difference; only the nil/non-nil
distinction feeds back into the engine, so the model returns a `Bool`.
Note the Go code does not compare `OrderDeps`. -/
def stepsAreEquivalent (a b : BuildStepWithRule) : Bool :=
  a.Ins.length = b.Ins.length &&
  (a.Ins.zip b.Ins).all (fun pq => pq.1 = pq.2) &&
  a.Outs.length = b.Outs.length &&
  (a.Outs.zip b.Outs).all (fun pq => pq.1 = pq.2) &&
  a.Variables.length = b.Variables.length &&
  a.Variables.all (fun kv => kv.2 = mapGetStr b.Variables kv.1) &&
  a.Rule.Name = b.Rule.Name &&
  a.Rule.Variables.length = b.Rule.Variables.length &&
  a.Rule.Variables.all (fun kv => kv.2 = mapGetStr b.Rule.Variables kv.1)

/-- Frontier update: `for _, out := range step.Outs { ctx.leafOutputs[out] = true }`. -/
def frontierAdd (s : List Path) (outs : List OutPath) : List Path :=
  outs.foldl (fun s o => setInsert s (Path.out o)) s

/-- Frontier update: `for _, in := range step.Ins { delete(ctx.leafOutputs, in) }`. -/
def frontierRemove (s : List Path) (ins : List Path) : List Path :=
  ins.foldl setRemove s

/-- Go `(*context).AddBuildStepWithRule` (context.go lines 226-264).
`Fatal` becomes `Except.error`.  The defensive copies of `Outs` and `Ins`
are identities in a functional model.  The `none` case of the step-store
lookup is unreachable for states built through this API (every index stored
in `buildSteps` points into `stepStore`). -/
def AddBuildStepWithRule (ctx : Ctx) (step : BuildStepWithRule) : Except String Ctx :=
  match step.Outs with
  | [] => .ok ctx
  | out0 :: _ =>
    match mapGet ctx.buildSteps out0.Absolute with
    | some idx =>
      match ctx.stepStore.get? idx with
      | none => .ok ctx
      | some prevStep =>
        if stepsAreEquivalent step prevStep then
          let store := ctx.stepStore.set idx
            { prevStep with traces := prevStep.traces ++ [ctx.trace] }
          let leaf := frontierRemove (frontierAdd ctx.leafOutputs step.Outs) step.Ins
          let leaf := frontierRemove (frontierAdd leaf step.Outs) step.Ins
          .ok { ctx with stepStore := store, leafOutputs := leaf }
        else
          .error ("Second incompatible build step for output " ++ out0.Absolute)
    | none =>
      let newStep := { step with traces := step.traces ++ [ctx.trace] }
      let idx := ctx.stepStore.length
      let store := ctx.stepStore ++ [newStep]
      let bs := step.Outs.foldl (fun m out => mapSet m out.Absolute idx) ctx.buildSteps
      let leaf := frontierRemove (frontierAdd ctx.leafOutputs step.Outs) step.Ins
      .ok { ctx with stepStore := store, buildSteps := bs, leafOutputs := leaf }

/-- Go `BuildStep` (context.go lines 36-47).  Nil slices and nil interface
values become `[]` and `none`; `os.FileMode` becomes `Nat`. -/
structure BuildStep where
  Out : Option OutPath
  Outs : List OutPath
  In : Option Path
  Ins : List Path
  Depfile : Option OutPath
  Cmd : String
  Script : String
  Data : String
  DataFileMode : Nat
  Descr : String
deriving DecidableEq, Repr

/-- Go `(*BuildStep).outs()` (context.go lines 69-74): `append(step.Outs, step.Out)`. -/
def BuildStep.outsList (step : BuildStep) : List OutPath :=
  match step.Out with
  | none => step.Outs
  | some o => step.Outs ++ [o]

/-- Go `(*BuildStep).ins()` (context.go lines 76-81). -/
def BuildStep.insList (step : BuildStep) : List Path :=
  match step.In with
  | none => step.Ins
  | some i => step.Ins ++ [i]

/-- Go `%q` of the data-file path and of `step.Out` in the `cp` command
(context.go line 205); both rendered as double-quoted strings.  The exact
quoting is immaterial to every property below. -/
def quoteStr (s : String) : String :=
  "\"" ++ s ++ "\""

/-- Go `(*context).AddBuildStep` (context.go lines 165-223).  The binder
`dataDir` stands for `path.Join(filepath.Dir(input.OutputDir), "DATA")`,
fixed by the generator invocation; the `MkdirAll`/`WriteFile` calls are
content-addressed idempotent writes whose failure paths (I/O errors) are
outside the state model.  A Go nil slice check `step.Outs != nil` is
modelled as `step.Outs ≠ []`. -/
def AddBuildStep (ctx : Ctx) (dataDir : String) (step : BuildStep) : Except String Ctx :=
  if step.Script ≠ "" ∧ step.Cmd ≠ "" then
    .error "cannot specify both Cmd and Script in a build step"
  else if step.Script = "" ∧ step.Data ≠ "" ∧ step.Cmd ≠ "" then
    .error "cannot specify both Cmd and Data in a build step"
  else if step.Script = "" ∧ step.Data ≠ "" ∧ (step.Out = none ∨ step.Outs ≠ []) then
    .error "a single Out is required for Data in a build step"
  else
    let data := if step.Script ≠ "" then step.Script else if step.Data ≠ "" then step.Data else ""
    let dataFilePath := if data ≠ "" then dataDir ++ "/" ++ hex8 (crc32 (strBytes data)) else ""
    let cmd :=
      if step.Script ≠ "" then dataFilePath
      else if step.Data ≠ "" then
        "cp " ++ quoteStr dataFilePath ++ " " ++
          quoteStr (((step.Out.map OutPath.Absolute)).getD "")
      else step.Cmd
    let ruleVars := [("command", cmd), ("description", step.Descr)] ++
      (match step.Depfile with
       | none => []
       | some d => [("depfile", ninjaEscape d.Absolute)])
    AddBuildStepWithRule ctx
      { Outs := step.outsList, Ins := step.insList, OrderDeps := [],
        Variables := [], Rule := { Name := "", Variables := ruleVars }, traces := [] }

/-- Go `(*context).WithTrace` (context.go lines 151-157): push the id, run the
body, pop the id (the pop is deferred, so it also fires on the error path;
on the fatal path the process exits, so the popped state is unobservable). -/
def WithTrace (ctx : Ctx) (id : String) (f : Ctx → Except String Ctx) :
    Except String Ctx :=
  match f { ctx with trace := ctx.trace ++ [id] } with
  | .ok c => .ok { c with trace := c.trace.dropLast }
  | .error e => .error e

/-- Capabilities of a user target, as probed by `handleTarget`: the `Build`
contract plus the optional `outputsInterface`, `runInterface` and
`testInterface`.  `run`/`test` hold the command string the interface returns
for the ambient `input.RunArgs`/`input.TestArgs`. -/
structure Target where
  build : Ctx → Except String Ctx
  outputs : Option (List Path)
  run : Option String
  test : Option String

/-- Go `path.Base` for the slash-free and `dir/name` forms the generator
passes (no trailing slashes): the part after the last `/`. -/
def pathBase (s : String) : String :=
  String.mk (s.data.foldl (fun acc c => if c = '/' then [] else acc ++ [c]) [])

/-- Go `unicode.IsUpper([]rune(name)[0])` on the ASCII target names. -/
def isUpperFirst (s : String) : Bool :=
  match s.data with
  | [] => false
  | c :: _ => c.isUpper

/-- Go `(*context).handleTarget` (context.go lines 271-339).  The binder
`rel` stands for `filepath.Rel(input.WorkingDir, ·)`, a pure function of the
ambient working directory.  Setting the global `currentTarget` and `ctx.cwd`
is omitted (not observed by any property below). -/
def handleTarget (rel : String → String) (ctx : Ctx) (targetPath : String)
    (target : Target) : Except String Ctx :=
  let ctx := { ctx with leafOutputs := [] }
  match WithTrace ctx ("target:" ++ targetPath) target.build with
  | .error e => .error e
  | .ok ctx =>
    if !isUpperFirst (pathBase targetPath) then .ok ctx
    else
      let ninjaOuts := sortStrings (ctx.leafOutputs.map (fun o => ninjaEscape o.Absolute))
      let printOuts :=
        sortStrings (match target.outputs with
          | some outs => outs.map (fun o => rel o.Absolute)
          | none => ctx.leafOutputs.map (fun o => rel o.Absolute))
      let printOuts := if printOuts = [] then ["<no outputs produced>"] else printOuts
      let ctx := { ctx with targetRules := ctx.targetRules ++
        [{ Target := targetPath, Ins := ninjaOuts,
           Variables := [("command", "echo \"" ++ String.intercalate "\\n" printOuts ++ "\""),
                         ("description", "Created " ++ targetPath ++ ":")] }] }
      let ctx :=
        match target.run with
        | none => ctx
        | some runCmd => { ctx with targetRules := ctx.targetRules ++
            [{ Target := targetPath ++ "#run", Ins := [targetPath],
               Variables := [("command", runCmd),
                             ("description", "Running " ++ targetPath ++ ":"),
                             ("pool", "console")] }] }
      let ctx :=
        match target.test with
        | none => ctx
        | some testCmd => { ctx with targetRules := ctx.targetRules ++
            [{ Target := targetPath ++ "#test", Ins := [targetPath],
               Variables := [("command", testCmd),
                             ("description", "Testing " ++ targetPath ++ ":"),
                             ("pool", "console")] }] }
      .ok ctx

/-! ## DAG serializer (context.go `ninjaFile`, lines 384-462)

The Go function ranges over the `ctx.buildSteps` map twice; Go leaves map
iteration order unspecified (and actively randomizes it between runs and
between the two loops).  The model therefore takes the two enumeration
orders of the map keys as explicit inputs `ord1` (rule-emission loop) and
`ord2` (edge-emission loop); a run of the Go code corresponds to some pair
of enumerations of the key set.  Per-step variable maps are rendered in
stored order. -/

def emitVars (vars : List (String × String)) : String :=
  String.join (vars.map (fun kv => "  " ++ kv.1 ++ " = " ++ kv.2 ++ "\n"))

/-- Go loop `for i, trace := range step.traces` (context.go lines 435-441):
print the trace line, then on `i == 10` print the skipped-count line with
`len(step.traces)-10` and break.  `n` is `len(step.traces)`. -/
def traceLines (n : Nat) : Nat → List (List String) → String
  | _, [] => ""
  | i, t :: rest =>
    let line := "# trace: " ++ String.intercalate " --> " t ++ "\n"
    if i = 10 then
      line ++ "# (skipped " ++ toString (n - 10) ++ " additional traces)\n"
    else
      line ++ traceLines n (i + 1) rest

def emitTraces (traces : List (List String)) : String :=
  traceLines traces.length 0 traces

/-- First serializer loop (context.go lines 391-409): assign `__ruleN` names
to anonymous rules in enumeration order (mutating the shared step store) and
emit one block per previously unseen rule name. -/
def rulesLoop (store : List BuildStepWithRule) (seen : List String) (i : Nat)
    (acc : String) : List Nat → List BuildStepWithRule × String
  | [] => (store, acc)
  | idx :: rest =>
    match store.get? idx with
    | none => rulesLoop store seen i acc rest
    | some step =>
      let named := step.Rule.Name = ""
      let step :=
        if named then
          { step with Rule := { step.Rule with Name := "__rule" ++ toString i } }
        else step
      let store := if named then store.set idx step else store
      let i := if named then i + 1 else i
      if step.Rule.Name ∈ seen then rulesLoop store seen i acc rest
      else
        rulesLoop store (seen ++ [step.Rule.Name]) i
          (acc ++ "rule " ++ step.Rule.Name ++ "\n" ++ emitVars step.Rule.Variables ++ "\n\n")
          rest

/-- Edge block for one step (context.go lines 420-447). -/
def stepText (step : BuildStepWithRule) : String :=
  let outs := step.Outs.map (fun o => ninjaEscape o.Absolute)
  let ins := step.Ins.map (fun p => ninjaEscape p.Absolute)
  let orderDeps := step.OrderDeps.map (fun p => ninjaEscape p.Absolute)
  emitTraces step.traces ++
    "build " ++ String.intercalate " " outs ++ ": " ++ step.Rule.Name ++ " " ++
    String.intercalate " " ins ++ " || " ++ String.intercalate " " orderDeps ++ "\n" ++
    emitVars step.Variables ++ "\n\n"

/-- Second serializer loop (context.go lines 413-448): emit each distinct
step (pointer identity = store index) once, in enumeration order. -/
def stepsLoop (store : List BuildStepWithRule) (seenSteps : List Nat)
    (acc : String) : List Nat → String
  | [] => acc
  | idx :: rest =>
    if idx ∈ seenSteps then stepsLoop store seenSteps acc rest
    else
      match store.get? idx with
      | none => stepsLoop store (seenSteps ++ [idx]) acc rest
      | some step => stepsLoop store (seenSteps ++ [idx]) (acc ++ stepText step) rest

/-- Third serializer loop (context.go lines 451-459) over the target-rule
slice (a deterministic order). -/
def targetsLoop (i : Nat) (acc : String) : List TargetRule → String
  | [] => acc
  | t :: rest =>
    targetsLoop (i + 1)
      (acc ++ "rule __target" ++ toString i ++ "\n" ++ emitVars t.Variables ++ "\n" ++
        "build " ++ t.Target ++ ": __target" ++ toString i ++ " " ++
        String.intercalate " " t.Ins ++ " __phony__\n" ++ "\n\n")
      rest

/-- Go `(*context).ninjaFile` (context.go lines 384-462).  `ord1` and `ord2`
are the two map-iteration orders over `ctx.buildSteps` (each a permutation of
the key set in any actual run). -/
def ninjaFile (ctx : Ctx) (ord1 ord2 : List String) : String :=
  let idxs := fun ord => ord.filterMap (fun k => mapGet ctx.buildSteps k)
  let resRules := rulesLoop ctx.stepStore [] 0 "" (idxs ord1)
  "build __phony__: phony\n\n" ++ "# build rules\n\n" ++ resRules.2 ++
    "# build steps\n\n" ++ stepsLoop resRules.1 [] "" (idxs ord2) ++
    "# targets\n\n" ++ targetsLoop 0 "" ctx.targetRules

/-! ## Second context.go snapshot: `Built` (lines 593-599) -/

/-- Go `(*context).Built` (context.go lines 593-599): reports whether `id`
was seen before and marks it seen.  The `seenOnce map[string]bool` is the
`seen` set. -/
def Built (seen : List String) (id : String) : Bool × List String :=
  if id ∈ seen then (true, seen) else (false, seen ++ [id])

/-- Run a sequence of `Built` calls from a given seen-set, keeping only the
final state. -/
def runBuilt (seen : List String) (ids : List String) : List String :=
  ids.foldl (fun s i => (Built s i).2) seen

/-! ## Fatal (util.go lines 37-49) -/

/-- Ambient state read by `Fatal`: the `input.CompletionsOnly` flag and the
`currentTarget` global. -/
structure FatalEnv where
  CompletionsOnly : Bool
  currentTarget : String
deriving DecidableEq, Repr

/-- Observable outcome of a `Fatal` call: either the function returns and the
caller keeps executing, or the process exits after writing one line to the
error stream. -/
inductive FatalResult where
  | ret
  | exit (stderrLine : String) (code : Nat)
deriving DecidableEq, Repr

/-- Go `Fatal` (util.go lines 37-49). -/
def Fatal (env : FatalEnv) (msg : String) : FatalResult :=
  if env.CompletionsOnly then .ret
  else if env.currentTarget = "" then
    .exit ("Error: " ++ msg ++ ".\n") 1
  else
    .exit ("Error while processing target '" ++ env.currentTarget ++ "': " ++ msg ++ ".\n") 1

/-! ## Helper lemmas -/

theorem charToNat_inj {a b : Char} (h : a.toNat = b.toNat) : a = b :=
  Char.eq_of_val_eq (UInt32.ext h)

theorem charListLe_total : ∀ as bs, charListLe as bs = true ∨ charListLe bs as = true
  | [], _ => Or.inl rfl
  | _ :: _, [] => Or.inr rfl
  | a :: as, b :: bs => by
    by_cases h1 : a.toNat < b.toNat
    · exact Or.inl (by simp [charListLe, h1])
    · by_cases h2 : b.toNat < a.toNat
      · exact Or.inr (by simp [charListLe, h2])
      · cases charListLe_total as bs with
        | inl h => exact Or.inl (by simp [charListLe, h1, h2, h])
        | inr h => exact Or.inr (by simp [charListLe, h1, h2, h])

theorem charListLe_trans :
    ∀ as bs cs, charListLe as bs = true → charListLe bs cs = true →
      charListLe as cs = true
  | [], _, _ => by intro _ _; rfl
  | _ :: _, [], _ => by intro h _; simp [charListLe] at h
  | _ :: _, _ :: _, [] => by intro _ h; simp [charListLe] at h
  | a :: as, b :: bs, c :: cs => by
    intro hab hbc
    simp only [charListLe] at hab hbc ⊢
    rcases Nat.lt_trichotomy a.toNat b.toNat with h1 | h1 | h1
    · rcases Nat.lt_trichotomy b.toNat c.toNat with h2 | h2 | h2
      · have h5 : a.toNat < c.toNat := by omega
        simp [h5]
      · have h5 : a.toNat < c.toNat := by omega
        simp [h5]
      · have h5 : ¬ b.toNat < c.toNat := by omega
        simp [h5, h2] at hbc
    · rcases Nat.lt_trichotomy b.toNat c.toNat with h2 | h2 | h2
      · have h5 : a.toNat < c.toNat := by omega
        simp [h5]
      · have h5 : ¬ a.toNat < c.toNat := by omega
        have h6 : ¬ c.toNat < a.toNat := by omega
        have h7 : ¬ a.toNat < b.toNat := by omega
        have h8 : ¬ b.toNat < a.toNat := by omega
        have h9 : ¬ b.toNat < c.toNat := by omega
        have h10 : ¬ c.toNat < b.toNat := by omega
        simp only [h7, h8, if_false, if_neg] at hab
        simp only [h9, h10, if_false, if_neg] at hbc
        simp only [h5, h6, if_false, if_neg]
        exact charListLe_trans as bs cs hab hbc
      · have h5 : ¬ b.toNat < c.toNat := by omega
        simp [h5, h2] at hbc
    · have h5 : ¬ a.toNat < b.toNat := by omega
      simp [h5, h1] at hab

theorem charListLe_antisymm :
    ∀ as bs, charListLe as bs = true → charListLe bs as = true → as = bs
  | [], [] => by intro _ _; rfl
  | [], _ :: _ => by intro _ h; simp [charListLe] at h
  | _ :: _, [] => by intro h _; simp [charListLe] at h
  | a :: as, b :: bs => by
    intro hab hba
    by_cases h1 : a.toNat < b.toNat
    · simp [charListLe, Nat.lt_asymm h1, Nat.lt_irrefl, h1] at hba
    · by_cases h2 : b.toNat < a.toNat
      · simp [charListLe, h1, h2] at hab
      · have he : a.toNat = b.toNat := Nat.le_antisymm (Nat.not_lt.mp h2) (Nat.not_lt.mp h1)
        simp only [charListLe, h1, h2, if_false, if_neg] at hab hba
        rw [charToNat_inj he, charListLe_antisymm as bs hab hba]

instance : IsTotal String (fun a b => strLe a b = true) :=
  ⟨fun a b => charListLe_total a.data b.data⟩

instance : IsTrans String (fun a b => strLe a b = true) :=
  ⟨fun a b c => charListLe_trans a.data b.data c.data⟩

instance : IsAntisymm String (fun a b => strLe a b = true) :=
  ⟨fun a b h1 h2 => String.ext (charListLe_antisymm a.data b.data h1 h2)⟩

theorem sortStrings_eq_of_perm {l1 l2 : List String} (h : l1.Perm l2) :
    sortStrings l1 = sortStrings l2 := by
  unfold sortStrings
  exact List.eq_of_perm_of_sorted
    ((List.perm_insertionSort _ l1).trans (h.trans (List.perm_insertionSort _ l2).symm))
    (List.sorted_insertionSort _ l1) (List.sorted_insertionSort _ l2)

theorem mem_setInsert (s : List Path) (p q : Path) :
    q ∈ setInsert s p ↔ q ∈ s ∨ q = p := by
  unfold setInsert
  split
  · rename_i hp
    constructor
    · exact Or.inl
    · rintro (h | rfl)
      · exact h
      · exact hp
  · simp [List.mem_append]

theorem mem_setRemove (s : List Path) (p q : Path) :
    q ∈ setRemove s p ↔ q ∈ s ∧ q ≠ p := by
  simp [setRemove, List.mem_filter]

theorem mem_frontierAdd (outs : List OutPath) :
    ∀ (s : List Path) (q : Path),
      q ∈ frontierAdd s outs ↔ q ∈ s ∨ q ∈ outs.map Path.out := by
  induction outs with
  | nil => intro s q; simp [frontierAdd]
  | cons o os ih =>
    intro s q
    have : frontierAdd s (o :: os) = frontierAdd (setInsert s (Path.out o)) os := rfl
    rw [this, ih, mem_setInsert]
    simp only [List.map_cons, List.mem_cons]
    tauto

theorem mem_frontierRemove (ins : List Path) :
    ∀ (s : List Path) (q : Path),
      q ∈ frontierRemove s ins ↔ q ∈ s ∧ q ∉ ins := by
  induction ins with
  | nil => intro s q; simp [frontierRemove]
  | cons i is ih =>
    intro s q
    have : frontierRemove s (i :: is) = frontierRemove (setRemove s i) is := rfl
    rw [this, ih, mem_setRemove]
    simp only [List.mem_cons]
    tauto

theorem mem_runBuilt (ids : List String) :
    ∀ (seen : List String) (x : String),
      x ∈ runBuilt seen ids ↔ x ∈ seen ∨ x ∈ ids := by
  induction ids with
  | nil => intro seen x; simp [runBuilt]
  | cons i is ih =>
    intro seen x
    have : runBuilt seen (i :: is) = runBuilt (Built seen i).2 is := rfl
    rw [this, ih]
    unfold Built
    split
    · rename_i hm
      simp only [List.mem_cons]
      constructor
      · rintro (h | h)
        · exact Or.inl h
        · exact Or.inr (Or.inr h)
      · rintro (h | rfl | h)
        · exact Or.inl h
        · exact Or.inl hm
        · exact Or.inr h
    · simp only [List.mem_append, List.mem_singleton, List.mem_cons]
      tauto

theorem addBuildStepWithRule_isOk_of_empty (ctx : Ctx) (step : BuildStepWithRule)
    (h : ctx.buildSteps = []) : (AddBuildStepWithRule ctx step).isOk = true := by
  unfold AddBuildStepWithRule
  match step.Outs with
  | [] => rfl
  | out0 :: rest =>
    simp only [h, mapGet, List.find?_nil, Option.map_none']
    rfl

/-! ## Concrete values used by witnesses and counterexamples -/

/-- The engine state produced by `newContext` (context.go lines 141-149). -/
def ctxEmpty : Ctx :=
  { trace := [], leafOutputs := [], buildSteps := [], stepStore := [], targetRules := [] }

/-! ## Claim theorems -/

/-- C3: for every identity string, the first `Built` call on a fresh context
returns `false` and every subsequent call with the same id returns `true`,
regardless of which other ids were queried in between: after any prior call
sequence `prior` starting from the fresh (empty) seen-set, `Built` returns
`true` exactly when the id already occurs in `prior`. -/
theorem Built_first_false_then_true (prior : List String) (id : String) :
    (Built (runBuilt [] prior) id).1 = decide (id ∈ prior) := by
  have h := mem_runBuilt prior [] id
  unfold Built
  split
  · rename_i hm
    have hp : id ∈ prior := by
      rcases h.mp hm with h' | h'
      · cases h'
      · exact h'
    simp [hp]
  · rename_i hm
    have hp : id ∉ prior := fun hc => hm (h.mpr (Or.inr hc))
    simp [hp]

/-- C5 counterexample: changing the resolved value of a registered flag does
not always change the configuration hash.  The one-flag registries
`x=plumless` and `x=buckeroo` differ in the value of flag `x` yet produce the
same CRC-32 checksum, hence the same build-directory suffix. -/
theorem lockHash_value_change_collides :
    ("plumless" : String) ≠ "buckeroo" ∧
    lockHash [("x", "plumless")] = lockHash [("x", "buckeroo")] ∧
    lockAndGetFlags [("x", "plumless")] ⟨false, ""⟩ =
      lockAndGetFlags [("x", "buckeroo")] ⟨false, ""⟩ := by
  refine ⟨by decide, by decide, ?_⟩
  have h : lockHash [("x", "plumless")] = lockHash [("x", "buckeroo")] := by decide
  unfold lockAndGetFlags
  rw [h]

/-- C5 amended: the configuration hash is a deterministic, registration-order
independent function of the resolved `name=value` table (the flag strings are
sorted before checksumming), but a change of one flag value only changes the
joined string, not necessarily its 32-bit checksum. -/
theorem lockHash_order_independent (l1 l2 : List (String × String))
    (h : l1.Perm l2) :
    lockHash l1 = lockHash l2 ∧
    ∀ st : FlagsState, lockAndGetFlags l1 st = lockAndGetFlags l2 st := by
  have hs : sortStrings (l1.map flagString) = sortStrings (l2.map flagString) :=
    sortStrings_eq_of_perm (h.map flagString)
  have hh : lockHash l1 = lockHash l2 := by
    unfold lockHash
    rw [hs]
  refine ⟨hh, fun st => ?_⟩
  unfold lockAndGetFlags
  rw [hh]

/-- C5 witness: the amended theorem applied to a concrete two-flag registry
registered in the two possible orders. -/
theorem lockHash_order_independent_witness :
    lockHash [("b", "2"), ("a", "1")] = lockHash [("a", "1"), ("b", "2")] ∧
    ∀ st : FlagsState,
      lockAndGetFlags [("b", "2"), ("a", "1")] st =
        lockAndGetFlags [("a", "1"), ("b", "2")] st :=
  lockHash_order_independent [("b", "2"), ("a", "1")] [("a", "1"), ("b", "2")] (by decide)

/-- C7 counterexample: with `input.CompletionsOnly` set, `Fatal` returns to
its caller instead of printing and exiting, so code after a `Fatal` call does
continue to execute (util.go lines 38-40). -/
theorem Fatal_returns_in_completions_mode :
    Fatal ⟨true, "some/target"⟩ "boom" = .ret := by decide

/-- C7 amended: unless the generator runs in completions-only mode, every
`Fatal` call writes exactly one diagnostic line to the error stream — naming
the target being processed when one is set — and terminates the process with
exit code 1; in completions-only mode `Fatal` returns and execution
continues. -/
theorem Fatal_single_line_and_exit (env : FatalEnv) (msg : String)
    (h : env.CompletionsOnly = false) :
    Fatal env msg =
      .exit (if env.currentTarget = "" then "Error: " ++ msg ++ ".\n"
             else "Error while processing target '" ++ env.currentTarget ++ "': " ++ msg ++ ".\n")
        1 := by
  unfold Fatal
  rw [h]
  simp only [Bool.false_eq_true, if_false]
  split <;> rfl

/-- C7 witness: the amended theorem at a concrete environment with a current
target set. -/
theorem Fatal_single_line_and_exit_witness :
    Fatal ⟨false, "lib/Foo"⟩ "boom" =
      .exit (if ("lib/Foo" : String) = "" then "Error: " ++ "boom" ++ ".\n"
             else "Error while processing target '" ++ "lib/Foo" ++ "': " ++ "boom" ++ ".\n")
        1 :=
  Fatal_single_line_and_exit ⟨false, "lib/Foo"⟩ "boom" rfl

/-- C8: evaluation of the serializer's trace-comment loop at a build step
with 11 provenance traces: the code emits all 11 trace lines (not at most
10) and then reports `(skipped 1 additional traces)` although none were
skipped, because the skip check `i == 10` runs after printing the line and
the reported count is `len(step.traces)-10` (context.go lines 435-441). -/
theorem emitTraces_eleven_traces :
    emitTraces (List.replicate 11 ["t"]) =
      String.join (List.replicate 11 "# trace: t\n") ++
        "# (skipped 1 additional traces)\n" ∧
    (List.replicate 11 ["t"]).length = 11 := by
  constructor
  · decide
  · decide

/-- C10: calling `buildDir()` before the flag registry is locked is the fatal
error `cannot use build directory before all flag values are known`; after
`lockAndGetFlags` it returns the build-directory prefix concatenated with the
hash-derived suffix fixed at lock time. -/
theorem buildDir_lock_protocol (st : FlagsState) (p : String)
    (flags : List (String × String)) (h : st.flagsLocked = false) :
    buildDir st p = .error "cannot use build directory before all flag values are known" ∧
    buildDir (lockAndGetFlags flags st) p = .ok (p ++ ("-" ++ hex8 (lockHash flags))) := by
  constructor
  · simp [buildDir, h]
  · simp [buildDir, lockAndGetFlags]

/-- C10 witness: the theorem at a concrete unlocked state, prefix and flag
table. -/
theorem buildDir_lock_protocol_witness :
    buildDir ⟨false, "stale"⟩ "OUT" =
      .error "cannot use build directory before all flag values are known" ∧
    buildDir (lockAndGetFlags [("x", "1")] ⟨false, "stale"⟩) "OUT" =
      .ok ("OUT" ++ ("-" ++ hex8 (lockHash [("x", "1")]))) :=
  buildDir_lock_protocol ⟨false, "stale"⟩ "OUT" [("x", "1")] rfl

/-- Build step with a single output and an anonymous rule, used to exhibit
order-dependent `__ruleN` naming. -/
def anonStep (k : String) : BuildStepWithRule :=
  { Outs := [⟨k⟩], Ins := [], OrderDeps := [], Variables := [],
    Rule := { Name := "", Variables := [] }, traces := [] }

/-- Engine state holding two registered steps with anonymous rules, outputs
`a` and `b`. -/
def twoStepCtx : Ctx :=
  { trace := [], leafOutputs := [], buildSteps := [("a", 0), ("b", 1)],
    stepStore := [anonStep "a", anonStep "b"], targetRules := [] }

/-- C1: the serializer does not sort the build-step table before emission; it
ranges over the Go map, whose iteration order is unspecified and randomized
between runs.  The two possible enumeration orders of the same two-step
state produce different documents (the auto-assigned `__rule0`/`__rule1`
names follow enumeration order), so the emitted text is not a function of
the engine state alone. -/
theorem ninjaFile_depends_on_iteration_order :
    twoStepCtx.buildSteps.map Prod.fst = ["a", "b"] ∧
    List.Perm ["a", "b"] ["b", "a"] ∧
    ninjaFile twoStepCtx ["a", "b"] ["a", "b"] ≠
      ninjaFile twoStepCtx ["b", "a"] ["b", "a"] := by
  refine ⟨by decide, by decide, by decide⟩

/-- First build step of the C2 scenario: produces output `a` from `x.c`. -/
def c2s1 : BuildStepWithRule :=
  { Outs := [⟨"a"⟩], Ins := [.src "x.c"], OrderDeps := [], Variables := [],
    Rule := { Name := "cc", Variables := [] }, traces := [] }

/-- The stored form of `c2s1` after registration (one provenance trace
recorded, here the empty trace stack). -/
def c2prev : BuildStepWithRule :=
  { c2s1 with traces := [[]] }

/-- Engine state after registering `c2s1`. -/
def c2ctx1 : Ctx :=
  { trace := [], leafOutputs := [.out ⟨"a"⟩], buildSteps := [("a", 0)],
    stepStore := [c2prev], targetRules := [] }

/-- Second build step of the C2 scenario: claims the same output `a`, but in
second position and with a different input list. -/
def c2s2 : BuildStepWithRule :=
  { Outs := [⟨"b"⟩, ⟨"a"⟩], Ins := [.src "y.c"], OrderDeps := [], Variables := [],
    Rule := { Name := "cc", Variables := [] }, traces := [] }

/-- C2 counterexample: a non-equivalent step that redeclares output `a` in
the second position of its output list is accepted without a fatal error —
the conflict check only consults `Outs[0]` — and the registration of `a` is
silently overwritten to point at the new step (store index 1). -/
theorem addBuildStepWithRule_later_position_not_checked :
    stepsAreEquivalent c2s2 c2prev = false ∧
    (⟨"a"⟩ : OutPath) ∈ c2s1.Outs ∧
    (⟨"a"⟩ : OutPath) ∈ c2s2.Outs ∧
    ((AddBuildStepWithRule ctxEmpty c2s1).bind fun c =>
      AddBuildStepWithRule c c2s2).isOk = true ∧
    ((AddBuildStepWithRule ctxEmpty c2s1).bind fun c =>
        AddBuildStepWithRule c c2s2).toOption.map
        (fun c => mapGet c.buildSteps "a") = some (some 1) := by
  refine ⟨by decide, by decide, by decide, by decide, by decide⟩

/-- C2 amended: the redefinition check is keyed on the first declared output.
When a step is already registered under the new step's first output, an
equivalent redeclaration succeeds silently, appending exactly one new
provenance trace to the stored step and leaving the output registration
unchanged; a non-equivalent one is the fatal incompatible-redefinition
error.  An overlap only at a later output position is not checked. -/
theorem addBuildStepWithRule_first_output_conflict
    (ctx : Ctx) (step prevStep : BuildStepWithRule) (out0 : OutPath)
    (rest : List OutPath) (idx : Nat)
    (ho : step.Outs = out0 :: rest)
    (hm : mapGet ctx.buildSteps out0.Absolute = some idx)
    (hp : ctx.stepStore.get? idx = some prevStep) :
    (stepsAreEquivalent step prevStep = true →
      AddBuildStepWithRule ctx step = .ok { ctx with
        stepStore := ctx.stepStore.set idx
          { prevStep with traces := prevStep.traces ++ [ctx.trace] },
        leafOutputs := frontierRemove (frontierAdd
          (frontierRemove (frontierAdd ctx.leafOutputs step.Outs) step.Ins)
          step.Outs) step.Ins }) ∧
    (stepsAreEquivalent step prevStep = false →
      AddBuildStepWithRule ctx step =
        .error ("Second incompatible build step for output " ++ out0.Absolute)) := by
  have hp' : ctx.stepStore[idx]? = some prevStep := by
    rw [← List.get?_eq_getElem?]
    exact hp
  constructor <;> intro he <;>
    simp [AddBuildStepWithRule, ho, hm, hp', he]

/-- C2 witness: redeclaring the registered step `c2s1` for output `a` (an
equivalent step) succeeds and appends one provenance trace. -/
theorem addBuildStepWithRule_first_output_conflict_witness :
    stepsAreEquivalent c2s1 c2prev = true ∧
    AddBuildStepWithRule c2ctx1 c2s1 = .ok { c2ctx1 with
      stepStore := c2ctx1.stepStore.set 0
        { c2prev with traces := c2prev.traces ++ [c2ctx1.trace] },
      leafOutputs := frontierRemove (frontierAdd
        (frontierRemove (frontierAdd c2ctx1.leafOutputs c2s1.Outs) c2s1.Ins)
        c2s1.Outs) c2s1.Ins } :=
  ⟨by decide,
    (addBuildStepWithRule_first_output_conflict c2ctx1 c2s1 c2prev ⟨"a"⟩ [] 0
      rfl (by decide) rfl).1 (by decide)⟩

/-- C6: a build step declaring no outputs is dropped without touching the
engine state: `AddBuildStepWithRule` returns the context unchanged, and a
zero-output `AddBuildStep` call that returns leaves the context unchanged
as well (its validation can still be fatal, in which case generation stops
with no state change either). -/
theorem addBuildStep_zero_outputs_noop (ctx ctx' : Ctx) (dataDir : String)
    (step : BuildStep) (s : BuildStepWithRule)
    (h1 : step.Out = none) (h2 : step.Outs = []) (hs : s.Outs = []) :
    AddBuildStepWithRule ctx s = .ok ctx ∧
    (AddBuildStep ctx dataDir step = .ok ctx' → ctx' = ctx) := by
  have hwr : ∀ t : BuildStepWithRule, t.Outs = [] → AddBuildStepWithRule ctx t = .ok ctx := by
    intro t ht
    simp [AddBuildStepWithRule, ht]
  refine ⟨hwr s hs, fun hok => ?_⟩
  have houts : BuildStep.outsList step = [] := by
    simp [BuildStep.outsList, h1, h2]
  unfold AddBuildStep at hok
  split_ifs at hok
  all_goals
    first
    | exact Except.noConfusion hok
    | (simp only [AddBuildStepWithRule, houts] at hok
       exact (Except.ok.inj hok).symm)

/-- C6 witness: the theorem at a concrete zero-output step. -/
theorem addBuildStep_zero_outputs_noop_witness :
    AddBuildStepWithRule ctxEmpty
      { Outs := [], Ins := [.src "x.c"], OrderDeps := [], Variables := [],
        Rule := { Name := "cc", Variables := [] }, traces := [] } = .ok ctxEmpty ∧
    (AddBuildStep ctxEmpty "DATA"
      { Out := none, Outs := [], In := none, Ins := [.src "x.c"], Depfile := none,
        Cmd := "gcc", Script := "", Data := "", DataFileMode := 0, Descr := "" } =
        .ok ctxEmpty → ctxEmpty = ctxEmpty) :=
  addBuildStep_zero_outputs_noop ctxEmpty ctxEmpty "DATA"
    { Out := none, Outs := [], In := none, Ins := [.src "x.c"], Depfile := none,
      Cmd := "gcc", Script := "", Data := "", DataFileMode := 0, Descr := "" }
    { Outs := [], Ins := [.src "x.c"], OrderDeps := [], Variables := [],
      Rule := { Name := "cc", Variables := [] }, traces := [] }
    rfl rfl rfl

/-- Step carrying both a `Script` and inline `Data` with `Out` unset: the
`Script` branch is taken, so the Data-related checks never run. -/
def scriptAndDataStep : BuildStep :=
  { Out := none, Outs := [⟨"o"⟩], In := none, Ins := [], Depfile := none,
    Cmd := "", Script := "#!/bin/sh", Data := "payload", DataFileMode := 0, Descr := "" }

/-- C9 counterexample: a step carrying inline `Data` without a single `Out`
is not fatal when it also carries a `Script` — the Data checks sit in the
`else if` branch and are skipped (context.go lines 170-187). -/
theorem addBuildStep_data_check_skipped_for_script :
    scriptAndDataStep.Data ≠ "" ∧
    scriptAndDataStep.Out = none ∧
    (AddBuildStep ctxEmpty "DATA" scriptAndDataStep).isOk = true := by
  refine ⟨by decide, by decide, by decide⟩

/-- C9 amended: `Cmd` together with `Script` is fatal; with no `Script`,
`Cmd` together with `Data` is fatal, and a `Data` step must declare exactly
one output via `Out` (`Out` set, `Outs` unset) or be fatal; when `Script` is
set the Data checks are skipped.  Steps using only `Cmd`, only `Script`, or
only `Data` with a single `Out` pass validation (shown against an engine
state with no registered steps, where no redefinition conflict can occur). -/
theorem addBuildStep_validation (ctx : Ctx) (dataDir : String) (step : BuildStep) :
    (step.Script ≠ "" → step.Cmd ≠ "" →
      AddBuildStep ctx dataDir step =
        .error "cannot specify both Cmd and Script in a build step") ∧
    (step.Script = "" → step.Data ≠ "" → step.Cmd ≠ "" →
      AddBuildStep ctx dataDir step =
        .error "cannot specify both Cmd and Data in a build step") ∧
    (step.Script = "" → step.Data ≠ "" → step.Cmd = "" →
      (step.Out = none ∨ step.Outs ≠ []) →
      AddBuildStep ctx dataDir step =
        .error "a single Out is required for Data in a build step") ∧
    (ctx.buildSteps = [] → step.Script = "" → step.Data = "" →
      (AddBuildStep ctx dataDir step).isOk = true) ∧
    (ctx.buildSteps = [] → step.Script ≠ "" → step.Cmd = "" →
      (AddBuildStep ctx dataDir step).isOk = true) ∧
    (ctx.buildSteps = [] → step.Script = "" → step.Data ≠ "" → step.Cmd = "" →
      step.Out ≠ none → step.Outs = [] →
      (AddBuildStep ctx dataDir step).isOk = true) := by
  refine ⟨fun h1 h2 => ?_, fun h1 h2 h3 => ?_, fun h1 h2 h3 h4 => ?_,
          fun h1 h2 h3 => ?_, fun h1 h2 h3 => ?_, fun h1 h2 h3 h4 h5 h6 => ?_⟩ <;>
    unfold AddBuildStep
  · rw [if_pos ⟨h1, h2⟩]
  · rw [if_neg (by tauto), if_pos ⟨h1, h2, h3⟩]
  · rw [if_neg (by tauto), if_neg (by tauto), if_pos ⟨h1, h2, h4⟩]
  · rw [if_neg (by tauto), if_neg (by tauto), if_neg (by tauto)]
    exact addBuildStepWithRule_isOk_of_empty _ _ h1
  · rw [if_neg (by tauto), if_neg (by tauto), if_neg (by tauto)]
    exact addBuildStepWithRule_isOk_of_empty _ _ h1
  · rw [if_neg (by tauto), if_neg (by tauto), if_neg (by tauto)]
    exact addBuildStepWithRule_isOk_of_empty _ _ h1

/-- C9 witness: each validation clause at a concrete step. -/
theorem addBuildStep_validation_witness :
    AddBuildStep ctxEmpty "DATA"
        { Out := none, Outs := [], In := none, Ins := [], Depfile := none,
          Cmd := "gcc", Script := "#!/bin/sh", Data := "", DataFileMode := 0, Descr := "" } =
      .error "cannot specify both Cmd and Script in a build step" ∧
    AddBuildStep ctxEmpty "DATA"
        { Out := none, Outs := [], In := none, Ins := [], Depfile := none,
          Cmd := "gcc", Script := "", Data := "payload", DataFileMode := 0, Descr := "" } =
      .error "cannot specify both Cmd and Data in a build step" ∧
    AddBuildStep ctxEmpty "DATA"
        { Out := none, Outs := [], In := none, Ins := [], Depfile := none,
          Cmd := "", Script := "", Data := "payload", DataFileMode := 0, Descr := "" } =
      .error "a single Out is required for Data in a build step" ∧
    (AddBuildStep ctxEmpty "DATA"
        { Out := some ⟨"o"⟩, Outs := [], In := none, Ins := [], Depfile := none,
          Cmd := "gcc", Script := "", Data := "", DataFileMode := 0, Descr := "" }).isOk = true ∧
    (AddBuildStep ctxEmpty "DATA"
        { Out := some ⟨"o"⟩, Outs := [], In := none, Ins := [], Depfile := none,
          Cmd := "", Script := "#!/bin/sh", Data := "", DataFileMode := 0, Descr := "" }).isOk = true ∧
    (AddBuildStep ctxEmpty "DATA"
        { Out := some ⟨"o"⟩, Outs := [], In := none, Ins := [], Depfile := none,
          Cmd := "", Script := "", Data := "payload", DataFileMode := 0, Descr := "" }).isOk = true :=
  ⟨(addBuildStep_validation ctxEmpty "DATA" _).1 (by decide) (by decide),
   (addBuildStep_validation ctxEmpty "DATA" _).2.1 rfl (by decide) (by decide),
   (addBuildStep_validation ctxEmpty "DATA" _).2.2.1 rfl (by decide) rfl (Or.inl rfl),
   (addBuildStep_validation ctxEmpty "DATA" _).2.2.2.1 rfl rfl rfl,
   (addBuildStep_validation ctxEmpty "DATA" _).2.2.2.2.1 rfl (by decide) rfl,
   (addBuildStep_validation ctxEmpty "DATA" _).2.2.2.2.2 rfl rfl (by decide) rfl (by decide) rfl⟩

/-- Output paths of the C4 frontier scenario. -/
def c4o1 : OutPath := ⟨"/b/o1"⟩

def c4o2 : OutPath := ⟨"/b/o2"⟩

/-- Step S1 of the C4 scenario: produces `o1` from nothing. -/
def c4s1 : BuildStepWithRule :=
  { Outs := [c4o1], Ins := [], OrderDeps := [], Variables := [],
    Rule := { Name := "r1", Variables := [] }, traces := [] }

/-- Step S2 of the C4 scenario: produces `o2` from `o1`. -/
def c4s2 : BuildStepWithRule :=
  { Outs := [c4o2], Ins := [.out c4o1], OrderDeps := [], Variables := [],
    Rule := { Name := "r2", Variables := [] }, traces := [] }

/-- Top-level target whose build contract registers S1 then S2. -/
def c4target : Target :=
  { build := fun c => (AddBuildStepWithRule c c4s1).bind fun c => AddBuildStepWithRule c c4s2,
    outputs := none, run := none, test := none }

/-- Engine state after registering `c4s1` on a fresh context. -/
def c4ctx1 : Ctx :=
  { trace := [], leafOutputs := [.out c4o1], buildSteps := [("/b/o1", 0)],
    stepStore := [{ c4s1 with traces := [[]] }], targetRules := [] }

/-- C4: after a successful `AddBuildStepWithRule` of a step with at least one
output, the frontier contains exactly the previous frontier plus the step's
outputs, minus the step's inputs (outputs are inserted first, inputs removed
second).  Concretely, a target adding S1 (out `o1`, no ins) then S2 (out
`o2`, in `o1`) ends with frontier exactly `{o2}`, and its top-level
aggregation edge depends on (and prints) only `o2`.  The `hwf` hypothesis is
the store invariant of API-built states: every registered index points into
the step store. -/
theorem frontier_tracks_outputs_and_inputs (ctx ctx' : Ctx)
    (step : BuildStepWithRule) (p : Path)
    (hwf : ∀ k i, mapGet ctx.buildSteps k = some i → i < ctx.stepStore.length)
    (hne : step.Outs ≠ [])
    (hok : AddBuildStepWithRule ctx step = .ok ctx') :
    (p ∈ ctx'.leafOutputs ↔
      (p ∈ ctx.leafOutputs ∨ p ∈ step.Outs.map Path.out) ∧ p ∉ step.Ins) ∧
    (handleTarget (fun s => s) ctxEmpty "Foo" c4target).toOption.map
        (fun c => (c.leafOutputs, c.targetRules.map TargetRule.Ins)) =
      some ([Path.out c4o2], [[ninjaEscape "/b/o2"]]) := by
  refine ⟨?_, by decide⟩
  obtain ⟨out0, rest, ho⟩ : ∃ o r, step.Outs = o :: r := by
    cases hOuts : step.Outs with
    | nil => exact absurd hOuts hne
    | cons o r => exact ⟨o, r, rfl⟩
  unfold AddBuildStepWithRule at hok
  rw [ho] at hok
  cases hm : mapGet ctx.buildSteps out0.Absolute with
  | none =>
    simp only [hm] at hok
    have hinj := Except.ok.inj hok
    subst hinj
    simp only [← ho]
    rw [mem_frontierRemove, mem_frontierAdd]
  | some idx =>
    simp only [hm] at hok
    cases hg : ctx.stepStore.get? idx with
    | none =>
      have hlt := hwf _ _ hm
      rw [List.get?_eq_none] at hg
      omega
    | some prev =>
      simp only [hg] at hok
      by_cases he : stepsAreEquivalent step prev = true
      · rw [if_pos he] at hok
        have hinj := Except.ok.inj hok
        subst hinj
        simp only [← ho]
        rw [mem_frontierRemove, mem_frontierAdd, mem_frontierRemove, mem_frontierAdd]
        tauto
      · rw [if_neg he] at hok
        exact Except.noConfusion hok

/-- C4 witness: the theorem at the first step of the scenario — on a fresh
context, adding S1 makes `o1` a frontier member. -/
theorem frontier_tracks_outputs_and_inputs_witness :
    (Path.out c4o1 ∈ c4ctx1.leafOutputs ↔
      (Path.out c4o1 ∈ ctxEmpty.leafOutputs ∨ Path.out c4o1 ∈ c4s1.Outs.map Path.out) ∧
        Path.out c4o1 ∉ c4s1.Ins) ∧
    (handleTarget (fun s => s) ctxEmpty "Foo" c4target).toOption.map
        (fun c => (c.leafOutputs, c.targetRules.map TargetRule.Ins)) =
      some ([Path.out c4o2], [[ninjaEscape "/b/o2"]]) :=
  frontier_tracks_outputs_and_inputs ctxEmpty c4ctx1 c4s1 (Path.out c4o1)
    (fun k i h => by simp [mapGet, ctxEmpty] at h) (by decide) rfl

end DbtRules
